import Mathlib

/-!
Verification development for the `smartthingsng` Home Assistant custom
integration.  The Python sources under `custom_components/smartthingsng/`
are shallowly embedded as executable Lean definitions: capabilities,
platform names, device ids and attribute values are `String`s, Python
dicts are association lists in insertion order, and the side effects of
the event handler are reified as an explicit effect list.
-/

/-- Association-list lookup, modelling Python dict lookup
(`dict.get` / `dict[key]`): the first pair whose key matches wins. -/
def alookup {α : Type} (key : String) : List (String × α) → Option α
  | [] => none
  | (k, v) :: rest => if key = k then some v else alookup key rest

/-! ## Capability slot assignment (`DeviceBroker._assign_capabilities`) -/

/-- Inner loop of `DeviceBroker._assign_capabilities`: for each capability
in `assigned` (the list the platform's probe returned), skip it when it is
no longer in the pool, otherwise remove it from the pool (`list.remove`
drops the first occurrence) and record the slot `capability ↦ platform`. -/
def drawDown (platform : String) :
    List String → List String → List (String × String) →
    List String × List (String × String)
  | [], pool, slots => (pool, slots)
  | c :: rest, pool, slots =>
    if c ∈ pool then
      drawDown platform rest (pool.erase c) (slots ++ [(c, platform)])
    else
      drawDown platform rest pool slots

/-- Outer loop of `DeviceBroker._assign_capabilities`: iterate the
platforms in order; a platform whose module has no `get_capabilities`
attribute, or whose probe returns `None` or an empty list, is skipped
(`probe` returns `none` in the first two cases). -/
def assignLoop (probe : String → List String → Option (List String)) :
    List String → List String → List (String × String) →
    List (String × String)
  | [], _, slots => slots
  | p :: ps, pool, slots =>
    match probe p pool with
    | none => assignLoop probe ps pool slots
    | some assigned =>
      if assigned.isEmpty then assignLoop probe ps pool slots
      else
        let r := drawDown p assigned pool slots
        assignLoop probe ps r.1 r.2

/-- Per-device body of `DeviceBroker._assign_capabilities`: start from a
copy of the device's capability list and an empty slot dict. -/
def assignCapabilities (probe : String → List String → Option (List String))
    (platforms caps : List String) : List (String × String) :=
  assignLoop probe platforms caps []

/-- The `get_capabilities` pattern shared by the platform modules
(`button.py`, `media_player.py`, `number.py`, `select.py`): filter a
static capability table against the offered pool and return `None` when
nothing matched (`return supported if supported else None`). -/
def tableProbe (table : String → List String) (platform : String)
    (pool : List String) : Option (List String) :=
  let supported := (table platform).filter (fun c => decide (c ∈ pool))
  if supported.isEmpty then none else some supported

/-! ### Lemmas about `drawDown` -/

theorem drawDown_append (platform : String) :
    ∀ (assigned pool : List String) (slots : List (String × String)),
      drawDown platform assigned pool slots =
        ((drawDown platform assigned pool []).1,
          slots ++ (drawDown platform assigned pool []).2) := by
  intro assigned
  induction assigned with
  | nil => intro pool slots; simp [drawDown]
  | cons c rest ih =>
    intro pool slots
    by_cases h : c ∈ pool
    · simp only [drawDown, if_pos h]
      rw [ih (pool.erase c) (slots ++ [(c, platform)]),
        ih (pool.erase c) ([] ++ [(c, platform)])]
      simp
    · simp only [drawDown, if_neg h]
      exact ih pool slots

theorem drawDown_pool_subset (platform : String) :
    ∀ (assigned pool : List String) (slots : List (String × String))
      (c : String), c ∈ (drawDown platform assigned pool slots).1 → c ∈ pool := by
  intro assigned
  induction assigned with
  | nil => intro pool slots c h; simpa [drawDown] using h
  | cons a rest ih =>
    intro pool slots c h
    by_cases ha : a ∈ pool
    · simp only [drawDown, if_pos ha] at h
      exact List.mem_of_mem_erase (ih _ _ _ h)
    · simp only [drawDown, if_neg ha] at h
      exact ih _ _ _ h

theorem drawDown_pool_nodup (platform : String) :
    ∀ (assigned pool : List String) (slots : List (String × String)),
      pool.Nodup → (drawDown platform assigned pool slots).1.Nodup := by
  intro assigned
  induction assigned with
  | nil => intro pool slots h; simpa [drawDown] using h
  | cons a rest ih =>
    intro pool slots h
    by_cases ha : a ∈ pool
    · simp only [drawDown, if_pos ha]
      exact ih _ _ (h.erase a)
    · simp only [drawDown, if_neg ha]
      exact ih _ _ h

theorem drawDown_pool_mem (platform : String) :
    ∀ (assigned pool : List String) (slots : List (String × String)),
      pool.Nodup → ∀ c : String,
        (c ∈ (drawDown platform assigned pool slots).1 ↔
          c ∈ pool ∧ c ∉ assigned) := by
  intro assigned
  induction assigned with
  | nil => intro pool slots _ c; simp [drawDown]
  | cons a rest ih =>
    intro pool slots hp c
    by_cases ha : a ∈ pool
    · simp only [drawDown, if_pos ha]
      rw [ih (pool.erase a) _ (hp.erase a) c]
      constructor
      · rintro ⟨hc, hcr⟩
        have hne : c ≠ a := by
          intro h; subst h
          exact (List.Nodup.not_mem_erase hp) hc
        exact ⟨(List.mem_erase_of_ne hne).1 hc, by simp [hne, hcr]⟩
      · rintro ⟨hc, hcr⟩
        have hne : c ≠ a := fun h => hcr (by simp [h])
        exact ⟨(List.mem_erase_of_ne hne).2 hc, fun h => hcr (by simp [h])⟩
    · simp only [drawDown, if_neg ha]
      rw [ih pool _ hp c]
      constructor
      · rintro ⟨hc, hcr⟩
        have hne : c ≠ a := by rintro rfl; exact ha hc
        exact ⟨hc, by simp [hne, hcr]⟩
      · rintro ⟨hc, hcr⟩
        exact ⟨hc, fun h => hcr (by simp [h])⟩

theorem drawDown_nil_lookup (platform : String) :
    ∀ (assigned pool : List String), pool.Nodup → ∀ c : String,
      alookup c (drawDown platform assigned pool []).2 =
        if c ∈ assigned ∧ c ∈ pool then some platform else none := by
  intro assigned
  induction assigned with
  | nil => intro pool _ c; simp [drawDown, alookup]
  | cons a rest ih =>
    intro pool hp c
    by_cases ha : a ∈ pool
    · have hstep : drawDown platform (a :: rest) pool [] =
          drawDown platform rest (pool.erase a) [(a, platform)] := by
        simp [drawDown, ha]
      rw [hstep, drawDown_append platform rest (pool.erase a) [(a, platform)]]
      by_cases hc : c = a
      · subst hc
        simp [alookup, ha]
      · simp only [List.singleton_append, alookup, if_neg hc]
        show alookup c (drawDown platform rest (pool.erase a) []).2 = _
        rw [ih (pool.erase a) (hp.erase a) c]
        have hmem : c ∈ pool.erase a ↔ c ∈ pool := List.mem_erase_of_ne hc
        by_cases hcr : c ∈ rest
        · simp [hcr, hmem, hc]
        · simp [hcr, hc]
    · simp only [drawDown, if_neg ha]
      rw [ih pool hp c]
      by_cases hc : c = a
      · subst hc; simp [ha]
      · simp [hc]

theorem drawDown_lookup (platform : String)
    (assigned pool : List String) (slots : List (String × String))
    (hp : pool.Nodup) (c : String) :
    alookup c (drawDown platform assigned pool slots).2 =
      match alookup c slots with
      | some q => some q
      | none => if c ∈ assigned ∧ c ∈ pool then some platform else none := by
  rw [drawDown_append platform assigned pool slots]
  have halook : ∀ (l₁ l₂ : List (String × String)),
      alookup c (l₁ ++ l₂) =
        match alookup c l₁ with
        | some q => some q
        | none => alookup c l₂ := by
    intro l₁
    induction l₁ with
    | nil => intro l₂; simp [alookup]
    | cons kv t ih =>
      intro l₂
      by_cases h : c = kv.1
      · simp [alookup, h]
      · simp only [List.cons_append, alookup, if_neg h]
        exact ih l₂
  rw [halook, drawDown_nil_lookup platform assigned pool hp c]

theorem drawDown_slots_mem (platform : String) :
    ∀ (assigned pool : List String) (slots : List (String × String))
      (kv : String × String), kv ∈ (drawDown platform assigned pool slots).2 →
        kv ∈ slots ∨ (kv.2 = platform ∧ kv.1 ∈ pool ∧ kv.1 ∈ assigned) := by
  intro assigned
  induction assigned with
  | nil => intro pool slots kv h; exact Or.inl (by simpa [drawDown] using h)
  | cons a rest ih =>
    intro pool slots kv h
    by_cases ha : a ∈ pool
    · simp only [drawDown, if_pos ha] at h
      rcases ih _ _ _ h with h' | ⟨h1, h2, h3⟩
      · rcases List.mem_append.1 h' with h'' | h''
        · exact Or.inl h''
        · rcases List.mem_singleton.1 h'' with rfl
          exact Or.inr ⟨rfl, ha, by simp⟩
      · exact Or.inr ⟨h1, List.mem_of_mem_erase h2, by simp [h3]⟩
    · simp only [drawDown, if_neg ha] at h
      rcases ih _ _ _ h with h' | ⟨h1, h2, h3⟩
      · exact Or.inl h'
      · exact Or.inr ⟨h1, h2, by simp [h3]⟩

theorem drawDown_inv (platform : String) :
    ∀ (assigned pool : List String) (slots : List (String × String)),
      pool.Nodup → (slots.map Prod.fst).Nodup →
      (∀ k ∈ slots.map Prod.fst, k ∉ pool) →
        (((drawDown platform assigned pool slots).2.map Prod.fst).Nodup ∧
          ∀ k ∈ (drawDown platform assigned pool slots).2.map Prod.fst,
            k ∉ (drawDown platform assigned pool slots).1) := by
  intro assigned
  induction assigned with
  | nil => intro pool slots _ h1 h2; exact ⟨by simpa [drawDown] using h1,
      by simpa [drawDown] using h2⟩
  | cons a rest ih =>
    intro pool slots hp h1 h2
    by_cases ha : a ∈ pool
    · simp only [drawDown, if_pos ha]
      refine ih (pool.erase a) (slots ++ [(a, platform)]) (hp.erase a) ?_ ?_
      · have hanotin : a ∉ slots.map Prod.fst := fun h => h2 a h ha
        simp [List.nodup_append, h1, hanotin]
      · intro k hk
        rw [List.map_append, List.mem_append] at hk
        rcases hk with hk' | hk'
        · intro hke
          exact h2 k hk' (List.mem_of_mem_erase hke)
        · have hka : k = a := by simpa using hk'
          subst hka
          exact hp.not_mem_erase
    · simp only [drawDown, if_neg ha]
      exact ih pool slots hp h1 h2

theorem assignLoop_slots_mem (probe : String → List String → Option (List String)) :
    ∀ (platforms pool : List String) (slots : List (String × String))
      (kv : String × String), kv ∈ assignLoop probe platforms pool slots →
        kv ∈ slots ∨ kv.1 ∈ pool := by
  intro platforms
  induction platforms with
  | nil => intro pool slots kv h; exact Or.inl (by simpa [assignLoop] using h)
  | cons p ps ih =>
    intro pool slots kv h
    rcases hpr : probe p pool with _ | assigned
    · simp only [assignLoop, hpr] at h
      exact ih _ _ _ h
    · by_cases he : assigned.isEmpty
      · simp only [assignLoop, hpr, if_pos he] at h
        exact ih _ _ _ h
      · simp only [assignLoop, hpr, if_neg he] at h
        rcases ih _ _ _ h with h' | h'
        · rcases drawDown_slots_mem p assigned pool slots kv h' with h'' | ⟨_, h2, _⟩
          · exact Or.inl h''
          · exact Or.inr h2
        · exact Or.inr (drawDown_pool_subset p assigned pool slots kv.1 h')

theorem assignLoop_claimed (probe : String → List String → Option (List String)) :
    ∀ (platforms pool : List String) (slots : List (String × String))
      (kv : String × String), kv ∈ assignLoop probe platforms pool slots →
        kv ∈ slots ∨ ∃ p, p ∈ platforms ∧ ∃ pl, kv.1 ∈ (probe p pl).getD [] := by
  intro platforms
  induction platforms with
  | nil => intro pool slots kv h; exact Or.inl (by simpa [assignLoop] using h)
  | cons p ps ih =>
    intro pool slots kv h
    rcases hpr : probe p pool with _ | assigned
    · simp only [assignLoop, hpr] at h
      rcases ih _ _ _ h with h' | ⟨q, hq, pl, hpl⟩
      · exact Or.inl h'
      · exact Or.inr ⟨q, by simp [hq], pl, hpl⟩
    · by_cases he : assigned.isEmpty
      · simp only [assignLoop, hpr, if_pos he] at h
        rcases ih _ _ _ h with h' | ⟨q, hq, pl, hpl⟩
        · exact Or.inl h'
        · exact Or.inr ⟨q, by simp [hq], pl, hpl⟩
      · simp only [assignLoop, hpr, if_neg he] at h
        rcases ih _ _ _ h with h' | ⟨q, hq, pl, hpl⟩
        · rcases drawDown_slots_mem p assigned pool slots kv h' with h'' | ⟨_, _, h3⟩
          · exact Or.inl h''
          · exact Or.inr ⟨p, by simp, pool, by simp [hpr, h3]⟩
        · exact Or.inr ⟨q, by simp [hq], pl, hpl⟩

theorem assignLoop_nodup (probe : String → List String → Option (List String)) :
    ∀ (platforms pool : List String) (slots : List (String × String)),
      pool.Nodup → (slots.map Prod.fst).Nodup →
      (∀ k ∈ slots.map Prod.fst, k ∉ pool) →
        ((assignLoop probe platforms pool slots).map Prod.fst).Nodup := by
  intro platforms
  induction platforms with
  | nil => intro pool slots _ h1 _; simpa [assignLoop] using h1
  | cons p ps ih =>
    intro pool slots hp h1 h2
    rcases hpr : probe p pool with _ | assigned
    · simp only [assignLoop, hpr]
      exact ih _ _ hp h1 h2
    · by_cases he : assigned.isEmpty
      · simp only [assignLoop, hpr, if_pos he]
        exact ih _ _ hp h1 h2
      · simp only [assignLoop, hpr, if_neg he]
        obtain ⟨hn, hd⟩ := drawDown_inv p assigned pool slots hp h1 h2
        exact ih _ _ (drawDown_pool_nodup p assigned pool slots hp) hn hd

/-- C1: for every device capability set, every ordering of the platforms
list and every family of `get_capabilities` probes, the slot mapping built
by `DeviceBroker._assign_capabilities` assigns each capability to at most
one platform (its key list has no duplicates), every key belongs to the
device's original capability set, and a capability claimed by no
platform's probe is absent from the mapping. -/
theorem assign_capabilities_invariants
    (probe : String → List String → Option (List String))
    (platforms caps : List String) (hcaps : caps.Nodup) :
    ((assignCapabilities probe platforms caps).map Prod.fst).Nodup ∧
    (∀ kv ∈ assignCapabilities probe platforms caps, kv.1 ∈ caps) ∧
    (∀ c : String, (∀ p pl, c ∉ (probe p pl).getD []) →
      c ∉ (assignCapabilities probe platforms caps).map Prod.fst) := by
  refine ⟨?_, ?_, ?_⟩
  · exact assignLoop_nodup probe platforms caps [] hcaps (by simp) (by simp)
  · intro kv h
    rcases assignLoop_slots_mem probe platforms caps [] kv h with h' | h'
    · simp at h'
    · exact h'
  · intro c hc hmem
    rw [List.mem_map] at hmem
    obtain ⟨kv, hkv, rfl⟩ := hmem
    rcases assignLoop_claimed probe platforms caps [] kv hkv with h' | ⟨p, _, pl, h'⟩
    · simp at h'
    · exact hc p pl h'

/-- Witness for C1 at a concrete device with capabilities
`switch, audioVolume` and a two-platform order. -/
theorem assign_capabilities_invariants_witness :
    (["switch", "audioVolume"] : List String).Nodup ∧
    ((assignCapabilities
        (tableProbe fun p => if p = "media_player" then ["audioVolume"] else [])
        ["media_player", "number"] ["switch", "audioVolume"]).map Prod.fst).Nodup :=
  ⟨by decide,
    (assign_capabilities_invariants
      (tableProbe fun p => if p = "media_player" then ["audioVolume"] else [])
      ["media_player", "number"] ["switch", "audioVolume"] (by decide)).1⟩

theorem assignLoop_tableProbe_lookup (table : String → List String) :
    ∀ (platforms pool : List String) (slots : List (String × String)),
      pool.Nodup → ∀ c : String,
        alookup c (assignLoop (tableProbe table) platforms pool slots) =
          match alookup c slots with
          | some q => some q
          | none =>
            if c ∈ pool then
              platforms.find? (fun q => decide (c ∈ table q))
            else none := by
  intro platforms
  induction platforms with
  | nil =>
    intro pool slots _ c
    cases h : alookup c slots <;> simp [assignLoop, h, List.find?]
  | cons p ps ih =>
    intro pool slots hp c
    by_cases hsup : ((table p).filter (fun x => decide (x ∈ pool))).isEmpty
    · have hstep : assignLoop (tableProbe table) (p :: ps) pool slots =
          assignLoop (tableProbe table) ps pool slots := by
        simp [assignLoop, tableProbe, hsup]
      rw [hstep, ih pool slots hp c]
      have hnp : ∀ x ∈ table p, x ∉ pool := by
        rw [List.isEmpty_iff, List.filter_eq_nil_iff] at hsup
        intro x hx hxp
        exact hsup x hx (by simp [hxp])
      cases h : alookup c slots with
      | some q => simp
      | none =>
        by_cases hcp : c ∈ pool
        · have hct : c ∉ table p := fun hct => hnp c hct hcp
          simp [hcp, List.find?, hct]
        · simp [hcp]
    · have hstep : assignLoop (tableProbe table) (p :: ps) pool slots =
          assignLoop (tableProbe table) ps
            (drawDown p ((table p).filter (fun x => decide (x ∈ pool))) pool slots).1
            (drawDown p ((table p).filter (fun x => decide (x ∈ pool))) pool slots).2 := by
        simp [assignLoop, tableProbe, hsup]
      rw [hstep,
        ih _ _ (drawDown_pool_nodup p _ pool slots hp) c,
        drawDown_lookup p _ pool slots hp c]
      cases h : alookup c slots with
      | some q => simp
      | none =>
        by_cases hcp : c ∈ pool
        · by_cases hct : c ∈ table p
          · have hcs : c ∈ (table p).filter (fun x => decide (x ∈ pool)) := by
              simp [List.mem_filter, hct, hcp]
            simp [hcs, hcp, hct, List.find?]
          · have hcs : c ∉ (table p).filter (fun x => decide (x ∈ pool)) := by
              simp [List.mem_filter, hct]
            have hmem := drawDown_pool_mem p
              ((table p).filter (fun x => decide (x ∈ pool))) pool slots hp c
            simp [hcs, hcp, hct, hmem, List.find?]
        · have hcs : c ∉ (table p).filter (fun x => decide (x ∈ pool)) := by
            simp [List.mem_filter, hcp]
          have hmem := drawDown_pool_mem p
            ((table p).filter (fun x => decide (x ∈ pool))) pool slots hp c
          simp [hcs, hcp, hmem]

/-- C2: for the table-filter probes the platform modules actually use,
`DeviceBroker._assign_capabilities` is exactly the single-pass draw-down:
a capability of the device is assigned to the first platform in iteration
order whose table claims it, and to nothing else; a capability outside
the device's set is never assigned. -/
theorem assign_capabilities_first_claim_wins (table : String → List String)
    (platforms caps : List String) (hcaps : caps.Nodup) (c : String) :
    alookup c (assignCapabilities (tableProbe table) platforms caps) =
      if c ∈ caps then platforms.find? (fun q => decide (c ∈ table q))
      else none := by
  rw [assignCapabilities, assignLoop_tableProbe_lookup table platforms caps [] hcaps c]
  simp [alookup]

/-- Witness for C2, the worked example from the specification: device
capabilities `switch, audioVolume`, platform order
`switch-platform, media_player-platform`; `audioVolume` goes to the
media player platform. -/
theorem assign_capabilities_first_claim_wins_witness :
    (["switch", "audioVolume"] : List String).Nodup ∧
    alookup "audioVolume"
      (assignCapabilities
        (tableProbe fun p =>
          if p = "switch" then ["switch"]
          else if p = "media_player" then ["audioVolume"] else [])
        ["switch", "media_player"] ["switch", "audioVolume"]) =
      some "media_player" :=
  ⟨by decide,
    (assign_capabilities_first_claim_wins
      (fun p =>
        if p = "switch" then ["switch"]
        else if p = "media_player" then ["audioVolume"] else [])
      ["switch", "media_player"] ["switch", "audioVolume"] (by decide)
      "audioVolume").trans (by decide)⟩

/-! ## Push-event handling (`DeviceBroker._event_handler`) -/

/-- Event type tag used by the external `pysmartapp` library for device
events (`EVENT_TYPE_DEVICE`). -/
def EVENT_TYPE_DEVICE : String := "DEVICE_EVENT"

/-- String value of the external `pysmartthings` constant
`Capability.button`. -/
def capabilityButton : String := "button"

/-- String value of the external `pysmartthings` constant
`Attribute.button`. -/
def attributeButton : String := "button"

/-- One event of a push batch, with the fields `_event_handler` reads. -/
structure DeviceEvent where
  eventType : String
  deviceId : String
  componentId : String
  capability : String
  attributeName : String
  value : String
  locationId : String
  data : String
deriving DecidableEq

/-- A push request: the installed application id it is scoped to and its
event batch (`req.installed_app_id`, `req.events`). -/
structure EventRequest where
  installedAppId : String
  events : List DeviceEvent
deriving DecidableEq

/-- The broker state `_event_handler` consults: its own installed app id
and the device dict (device id → device label). -/
structure Broker where
  installedAppId : String
  devices : List (String × String)
deriving DecidableEq

/-- Observable side effects of `_event_handler`, in program order:
a `device.status.apply_attribute_update` call, a
`hass.bus.async_fire(EVENT_BUTTON, …)` call, and the final
`async_dispatcher_send(…, SIGNAL_SMARTTHINGS_UPDATE, updated_devices)`. -/
inductive Effect where
  | applyUpdate (deviceId componentId capability attributeName value data : String)
  | fireButton (componentId deviceId locationId value name data : String)
  | dispatch (ids : List String)
deriving DecidableEq

/-- Adding a device id to the `updated_devices` set: a Python `set.add`
on an insertion-ordered representation. -/
def insertId (ids : List String) (i : String) : List String :=
  if i ∈ ids then ids else ids ++ [i]

/-- Loop body of `_event_handler` over the event batch, threading the
`updated_devices` set and collecting effects in program order. -/
def processEvents (b : Broker) : List DeviceEvent → List String →
    List Effect × List String
  | [], updated => ([], updated)
  | e :: rest, updated =>
    if e.eventType = EVENT_TYPE_DEVICE then
      match alookup e.deviceId b.devices with
      | some label =>
        let fx :=
          Effect.applyUpdate e.deviceId e.componentId e.capability
            e.attributeName e.value e.data ::
          (if e.capability = capabilityButton ∧ e.attributeName = attributeButton then
            [Effect.fireButton e.componentId e.deviceId e.locationId
              e.value label e.data]
          else [])
        let r := processEvents b rest (insertId updated e.deviceId)
        (fx ++ r.1, r.2)
      | none => processEvents b rest updated
    else processEvents b rest updated

/-- `DeviceBroker._event_handler`: drop batches for a foreign installed
app id, otherwise process the batch and send one dispatcher notification
carrying the updated-device set at the end. -/
def eventHandler (b : Broker) (req : EventRequest) : List Effect :=
  if req.installedAppId ≠ b.installedAppId then []
  else
    let r := processEvents b req.events []
    r.1 ++ [Effect.dispatch r.2]

/-- Recogniser for the dispatcher-notification effect. -/
def isDispatchB : Effect → Bool
  | Effect.dispatch _ => true
  | _ => false

/-- Recogniser for the `EVENT_BUTTON` bus-fire effect. -/
def isFireButtonB : Effect → Bool
  | Effect.fireButton _ _ _ _ _ _ => true
  | _ => false

/-- An event that makes `_event_handler` fire an `EVENT_BUTTON` event:
device-type, known device id, button capability and button attribute. -/
def firesButton (b : Broker) (e : DeviceEvent) : Prop :=
  e.eventType = EVENT_TYPE_DEVICE ∧ (alookup e.deviceId b.devices).isSome = true ∧
    e.capability = capabilityButton ∧ e.attributeName = attributeButton

instance (b : Broker) (e : DeviceEvent) : Decidable (firesButton b e) := by
  unfold firesButton; infer_instance

/-- The `EVENT_BUTTON` payload `_event_handler` builds for an event. -/
def buttonPayload (b : Broker) (e : DeviceEvent) : Effect :=
  Effect.fireButton e.componentId e.deviceId e.locationId e.value
    ((alookup e.deviceId b.devices).getD "") e.data

theorem insertId_mem (ids : List String) (i j : String) :
    j ∈ insertId ids i ↔ j ∈ ids ∨ j = i := by
  by_cases h : i ∈ ids
  · simp only [insertId, if_pos h]
    constructor
    · exact Or.inl
    · rintro (hj | rfl)
      · exact hj
      · exact h
  · simp [insertId, if_neg h]

theorem insertId_nodup (ids : List String) (i : String) (h : ids.Nodup) :
    (insertId ids i).Nodup := by
  by_cases hi : i ∈ ids
  · simpa [insertId, hi] using h
  · simp [insertId, hi, List.nodup_append, h, hi]

theorem processEvents_fst_no_dispatch (b : Broker) :
    ∀ (evts : List DeviceEvent) (updated : List String),
      ∀ fx ∈ (processEvents b evts updated).1, isDispatchB fx = false := by
  intro evts
  induction evts with
  | nil => intro updated fx h; simp [processEvents] at h
  | cons e rest ih =>
    intro updated fx h
    by_cases he : e.eventType = EVENT_TYPE_DEVICE
    · rcases hl : alookup e.deviceId b.devices with _ | label
      · simp only [processEvents, if_pos he, hl] at h
        exact ih _ _ h
      · simp only [processEvents, if_pos he, hl] at h
        rcases List.mem_append.1 h with h' | h'
        · rcases List.mem_cons.1 h' with rfl | h''
          · rfl
          · by_cases hb : e.capability = capabilityButton ∧ e.attributeName = attributeButton
            · rcases List.mem_singleton.1 (by simpa [hb] using h'') with rfl
              rfl
            · simp [hb] at h''
        · exact ih _ _ h'
    · simp only [processEvents, if_neg he] at h
      exact ih _ _ h

theorem processEvents_snd_mem (b : Broker) :
    ∀ (evts : List DeviceEvent) (updated : List String) (i : String),
      i ∈ (processEvents b evts updated).2 ↔
        i ∈ updated ∨ ∃ e, e ∈ evts ∧ e.eventType = EVENT_TYPE_DEVICE ∧
          (alookup e.deviceId b.devices).isSome = true ∧ e.deviceId = i := by
  intro evts
  induction evts with
  | nil => intro updated i; simp [processEvents]
  | cons e rest ih =>
    intro updated i
    by_cases he : e.eventType = EVENT_TYPE_DEVICE
    · rcases hl : alookup e.deviceId b.devices with _ | label
      · simp only [processEvents, if_pos he, hl]
        rw [ih updated i]
        constructor
        · rintro (hu | ⟨e', he', h1, h2, h3⟩)
          · exact Or.inl hu
          · exact Or.inr ⟨e', by simp [he'], h1, h2, h3⟩
        · rintro (hu | ⟨e', he', h1, h2, h3⟩)
          · exact Or.inl hu
          · rcases List.mem_cons.1 he' with rfl | he''
            · rw [hl] at h2; simp at h2
            · exact Or.inr ⟨e', he'', h1, h2, h3⟩
      · simp only [processEvents, if_pos he, hl]
        rw [ih (insertId updated e.deviceId) i]
        rw [insertId_mem]
        constructor
        · rintro ((hu | rfl) | ⟨e', he', h1, h2, h3⟩)
          · exact Or.inl hu
          · exact Or.inr ⟨e, by simp, he, by simp [hl], rfl⟩
          · exact Or.inr ⟨e', by simp [he'], h1, h2, h3⟩
        · rintro (hu | ⟨e', he', h1, h2, h3⟩)
          · exact Or.inl (Or.inl hu)
          · rcases List.mem_cons.1 he' with rfl | he''
            · exact Or.inl (Or.inr h3.symm)
            · exact Or.inr ⟨e', he'', h1, h2, h3⟩
    · simp only [processEvents, if_neg he]
      rw [ih updated i]
      constructor
      · rintro (hu | ⟨e', he', h1, h2, h3⟩)
        · exact Or.inl hu
        · exact Or.inr ⟨e', by simp [he'], h1, h2, h3⟩
      · rintro (hu | ⟨e', he', h1, h2, h3⟩)
        · exact Or.inl hu
        · rcases List.mem_cons.1 he' with rfl | he''
          · exact absurd h1 he
          · exact Or.inr ⟨e', he'', h1, h2, h3⟩

theorem processEvents_snd_nodup (b : Broker) :
    ∀ (evts : List DeviceEvent) (updated : List String),
      updated.Nodup → (processEvents b evts updated).2.Nodup := by
  intro evts
  induction evts with
  | nil => intro updated h; simpa [processEvents] using h
  | cons e rest ih =>
    intro updated h
    by_cases he : e.eventType = EVENT_TYPE_DEVICE
    · rcases hl : alookup e.deviceId b.devices with _ | label
      · simp only [processEvents, if_pos he, hl]
        exact ih _ h
      · simp only [processEvents, if_pos he, hl]
        exact ih _ (insertId_nodup updated e.deviceId h)
    · simp only [processEvents, if_neg he]
      exact ih _ h

/-- C3: for a push batch whose installed app id matches the broker's,
`_event_handler` emits exactly one dispatcher notification on
`SIGNAL_SMARTTHINGS_UPDATE`, and the set it carries has no duplicates and
contains exactly the device ids of known devices that received a
device-type event in the batch. -/
theorem event_handler_single_dispatch (b : Broker) (req : EventRequest)
    (h : req.installedAppId = b.installedAppId) :
    ((eventHandler b req).countP isDispatchB) = 1 ∧
    ∀ ids, Effect.dispatch ids ∈ eventHandler b req →
      ids.Nodup ∧ ∀ i, (i ∈ ids ↔ ∃ e, e ∈ req.events ∧
        e.eventType = EVENT_TYPE_DEVICE ∧
        (alookup e.deviceId b.devices).isSome = true ∧ e.deviceId = i) := by
  have hne : ¬ req.installedAppId ≠ b.installedAppId := fun hne => hne h
  constructor
  · simp only [eventHandler, if_neg hne]
    rw [List.countP_append]
    have h0 : (processEvents b req.events []).1.countP isDispatchB = 0 :=
      List.countP_eq_zero.2 (fun fx hfx => by
        simpa using processEvents_fst_no_dispatch b req.events [] fx hfx)
    simp [h0, List.countP_cons, isDispatchB]
  · intro ids hids
    simp only [eventHandler, if_neg hne] at hids
    rcases List.mem_append.1 hids with h' | h'
    · have := processEvents_fst_no_dispatch b req.events [] _ h'
      simp [isDispatchB] at this
    · rcases List.mem_singleton.1 h' with heq
      have hids_eq : ids = (processEvents b req.events []).2 := by
        injection heq
      subst hids_eq
      refine ⟨processEvents_snd_nodup b req.events [] (by simp), ?_⟩
      intro i
      rw [processEvents_snd_mem b req.events [] i]
      simp

/-- Witness for C3: a two-event batch (one button event for a known
device, one event for an unknown device) yields exactly one dispatch. -/
theorem event_handler_single_dispatch_witness :
    ((eventHandler (Broker.mk "app1" [("dev1", "Lamp")])
      (EventRequest.mk "app1"
        [DeviceEvent.mk EVENT_TYPE_DEVICE "dev1" "main" "switch" "switch"
          "on" "loc1" "d1",
         DeviceEvent.mk EVENT_TYPE_DEVICE "ghost" "main" "switch" "switch"
          "off" "loc1" "d2"])).countP isDispatchB) = 1 :=
  (event_handler_single_dispatch (Broker.mk "app1" [("dev1", "Lamp")])
    (EventRequest.mk "app1"
      [DeviceEvent.mk EVENT_TYPE_DEVICE "dev1" "main" "switch" "switch"
        "on" "loc1" "d1",
       DeviceEvent.mk EVENT_TYPE_DEVICE "ghost" "main" "switch" "switch"
        "off" "loc1" "d2"]) rfl).1

/-- C4: a push batch scoped to a foreign installed app id produces no
effects at all: no status mutation, no bus event, no dispatch, and the
handler returns normally. -/
theorem event_handler_foreign_app_noop (b : Broker) (req : EventRequest)
    (h : req.installedAppId ≠ b.installedAppId) :
    eventHandler b req = [] := by
  simp [eventHandler, h]

/-- Witness for C4 at a concrete foreign-installation batch. -/
theorem event_handler_foreign_app_noop_witness :
    eventHandler (Broker.mk "appA" [("dev1", "Lamp")])
      (EventRequest.mk "appB"
        [DeviceEvent.mk EVENT_TYPE_DEVICE "dev1" "main" "switch" "switch"
          "on" "loc1" "d1"]) = [] :=
  event_handler_foreign_app_noop _ _ (by decide)

theorem processEvents_fst_filter_button (b : Broker) :
    ∀ (evts : List DeviceEvent) (updated : List String),
      (processEvents b evts updated).1.filter isFireButtonB =
        (evts.filter (fun e => decide (firesButton b e))).map (buttonPayload b) := by
  intro evts
  induction evts with
  | nil => intro updated; simp [processEvents]
  | cons e rest ih =>
    intro updated
    by_cases he : e.eventType = EVENT_TYPE_DEVICE
    · rcases hl : alookup e.deviceId b.devices with _ | label
      · have hq : ¬ firesButton b e := by
          simp [firesButton, hl]
        simp only [processEvents, if_pos he, hl]
        rw [ih updated]
        simp [hq]
      · by_cases hb : e.capability = capabilityButton ∧ e.attributeName = attributeButton
        · have hq : firesButton b e := ⟨he, by simp [hl], hb.1, hb.2⟩
          simp only [processEvents, if_pos he, hl, if_pos hb]
          rw [List.filter_append, ih (insertId updated e.deviceId)]
          simp [isFireButtonB, hq, buttonPayload, hl]
        · have hq : ¬ firesButton b e := fun hq => hb ⟨hq.2.2.1, hq.2.2.2⟩
          simp only [processEvents, if_pos he, hl, if_neg hb]
          rw [List.filter_append, ih (insertId updated e.deviceId)]
          simp [isFireButtonB, hq]
    · have hq : ¬ firesButton b e := fun hq => he hq.1
      simp only [processEvents, if_neg he]
      rw [ih updated]
      simp [hq]

/-- C5: in a matching-installation batch, the `EVENT_BUTTON` bus events
fired by `_event_handler` are exactly one per device-type event with a
known device id, button capability and button attribute — each carrying
the event's component id, device id, location id, value, the device's
label and the event data — and no other event fires one. -/
theorem event_handler_button_events (b : Broker) (req : EventRequest)
    (h : req.installedAppId = b.installedAppId) :
    (eventHandler b req).filter isFireButtonB =
      (req.events.filter (fun e => decide (firesButton b e))).map
        (buttonPayload b) := by
  have hne : ¬ req.installedAppId ≠ b.installedAppId := fun hne => hne h
  simp only [eventHandler, if_neg hne]
  rw [List.filter_append, processEvents_fst_filter_button b req.events []]
  simp [isFireButtonB]

/-- Witness for C5: a known-device button event fires exactly the one
expected `EVENT_BUTTON` payload; a non-button event fires none. -/
theorem event_handler_button_events_witness :
    (eventHandler (Broker.mk "app2" [("dev2", "Remote")])
      (EventRequest.mk "app2"
        [DeviceEvent.mk EVENT_TYPE_DEVICE "dev2" "main" capabilityButton
          attributeButton "pushed" "loc2" "dx",
         DeviceEvent.mk EVENT_TYPE_DEVICE "dev2" "main" "switch" "switch"
          "on" "loc2" "dy"])).filter isFireButtonB =
      [Effect.fireButton "main" "dev2" "loc2" "pushed" "Remote" "dx"] :=
  (event_handler_button_events (Broker.mk "app2" [("dev2", "Remote")])
    (EventRequest.mk "app2"
      [DeviceEvent.mk EVENT_TYPE_DEVICE "dev2" "main" capabilityButton
        attributeButton "pushed" "loc2" "dx",
       DeviceEvent.mk EVENT_TYPE_DEVICE "dev2" "main" "switch" "switch"
        "on" "loc2" "dy"]) rfl).trans (by decide)

/-! ## Command failure handling (`send_command_service`,
`SmartThingsButton.async_press`) -/

/-- Log severities emitted by the command paths. -/
inductive LogLevel where
  | info
  | error
deriving DecidableEq

/-- `SmartThingsButton.async_press` over the outcome of
`self._device.command(...)`: logs at info level on success; on an
exception logs at error level and re-raises (`raise`). -/
def buttonAsyncPress (cmd : Except String Unit) :
    List LogLevel × Except String Unit :=
  match cmd with
  | Except.ok _ => ([LogLevel.info], Except.ok ())
  | Except.error e => ([LogLevel.error], Except.error e)

/-- `send_command_service` (with valid parameters and a configured entry)
over the outcome of `api.execute_device_command(...)`: logs at info level
on success; on an exception logs at error level and returns normally —
the `except Exception` block has no `raise`. -/
def sendCommandService (cmd : Except String Unit) :
    List LogLevel × Except String Unit :=
  match cmd with
  | Except.ok _ => ([LogLevel.info], Except.ok ())
  | Except.error _ => ([LogLevel.error], Except.ok ())

/-- C6 counterexample: when `api.execute_device_command` raises,
`send_command_service` logs the failure but does not re-raise it — the
handler returns normally, so the claim that every command-sending
operation re-raises is false. -/
theorem send_command_swallows_counterexample :
    (sendCommandService (Except.error "http 500")).1 = [LogLevel.error] ∧
    (sendCommandService (Except.error "http 500")).2 = Except.ok () ∧
    (sendCommandService (Except.error "http 500")).2 ≠
      Except.error "http 500" := by
  refine ⟨rfl, rfl, ?_⟩
  intro h
  exact Except.noConfusion h

/-- C6 amended: a failure in the button entity's press action is logged
and re-raised to the caller, while a failure in the `send_command`
service handler is logged and swallowed (the handler returns normally). -/
theorem command_failure_handling (e : String) :
    buttonAsyncPress (Except.error e) = ([LogLevel.error], Except.error e) ∧
    sendCommandService (Except.error e) = ([LogLevel.error], Except.ok ()) :=
  ⟨rfl, rfl⟩

/-! ## Platform probe declarations (C7) -/

/-- Keys of `CAPABILITY_TO_BUTTON` in `button.py`, in declaration
order. -/
def CAPABILITY_TO_BUTTON_keys : List String :=
  ["sceneControl", "button", "momentary", "panicAlarm", "waterSensor",
   "smokeDetector", "carbonMonoxideDetector", "chime", "mediaInputSource",
   "washerOperatingState", "dryerOperatingState",
   "dishwasherOperatingState", "ovenOperatingState",
   "robotCleanerCleaningMode"]

/-- `button.get_capabilities`. -/
def buttonGetCapabilities (capabilities : List String) :
    Option (List String) :=
  let supported :=
    CAPABILITY_TO_BUTTON_keys.filter (fun c => decide (c ∈ capabilities))
  if supported.isEmpty then none else some supported

/-- Keys of `CAPABILITY_TO_MEDIA_PLAYER` in `media_player.py`. -/
def CAPABILITY_TO_MEDIA_PLAYER_keys : List String :=
  ["tvChannel", "audioVolume", "mediaPlayback", "mediaInputSource"]

/-- `media_player.get_capabilities`. -/
def mediaPlayerGetCapabilities (capabilities : List String) :
    Option (List String) :=
  let supported :=
    CAPABILITY_TO_MEDIA_PLAYER_keys.filter (fun c => decide (c ∈ capabilities))
  if supported.isEmpty then none else some supported

/-- Keys of `CAPABILITY_TO_NUMBER` in `number.py`. -/
def CAPABILITY_TO_NUMBER_keys : List String :=
  ["audioVolume", "refrigerationSetpoint", "ovenSetpoint", "infraredLevel"]

/-- `number.get_capabilities`. -/
def numberGetCapabilities (capabilities : List String) :
    Option (List String) :=
  let supported :=
    CAPABILITY_TO_NUMBER_keys.filter (fun c => decide (c ∈ capabilities))
  if supported.isEmpty then none else some supported

/-- Keys of `CAPABILITY_TO_SELECT` in `select.py`. -/
def CAPABILITY_TO_SELECT_keys : List String :=
  ["washerMode", "dryerMode", "airConditionerMode", "dishwasherMode",
   "ovenMode", "robotCleanerCleaningMode", "mediaInputSource"]

/-- `select.get_capabilities`. -/
def selectGetCapabilities (capabilities : List String) :
    Option (List String) :=
  let supported :=
    CAPABILITY_TO_SELECT_keys.filter (fun c => decide (c ∈ capabilities))
  if supported.isEmpty then none else some supported

/-- Keys of `CAPABILITY_TO_VACUUM` in `vacuum.py`. -/
def CAPABILITY_TO_VACUUM_keys : List String :=
  ["robotCleanerCleaningMode", "robotCleanerMovement"]

/-- `vacuum.get_vacuum_capabilities` — note the name: `vacuum.py` does
not declare a function named `get_capabilities`. -/
def getVacuumCapabilities (capabilities : List String) :
    Option (List String) :=
  let supported :=
    capabilities.filter (fun c => decide (c ∈ CAPABILITY_TO_VACUUM_keys))
  if supported.isEmpty then none else some supported

/-- The broker's `hasattr(platform_module, "get_capabilities")` view of
the platform modules: `some probe` when the module declares a function
named exactly `get_capabilities`, `none` otherwise.  `vacuum.py` declares
`get_vacuum_capabilities` instead, so the broker sees nothing there. -/
def moduleGetCapabilities : String → Option (List String → Option (List String))
  | "button" => some buttonGetCapabilities
  | "media_player" => some mediaPlayerGetCapabilities
  | "number" => some numberGetCapabilities
  | "select" => some selectGetCapabilities
  | _ => none

/-- The probe the broker's assignment loop actually runs for a platform
name: skip when the module lacks a `get_capabilities` attribute. -/
def brokerProbe (platform : String) (pool : List String) :
    Option (List String) :=
  match moduleGetCapabilities platform with
  | none => none
  | some f => f pool

/-- C7 counterexample: the vacuum platform module declares no function
named `get_capabilities`, so the broker's `hasattr` check fails for it
and its probe is never called. -/
theorem vacuum_no_get_capabilities_counterexample :
    moduleGetCapabilities "vacuum" = none := rfl

/-- C7 amended: of the five platform modules, `button`, `media_player`,
`number` and `select` declare a `get_capabilities` probe the broker's
assignment loop calls; `vacuum` declares `get_vacuum_capabilities`
instead, which the broker's `hasattr`-guarded loop skips, so the vacuum
platform never claims capabilities during slot assignment. -/
theorem platform_probe_declarations :
    moduleGetCapabilities "button" = some buttonGetCapabilities ∧
    moduleGetCapabilities "media_player" = some mediaPlayerGetCapabilities ∧
    moduleGetCapabilities "number" = some numberGetCapabilities ∧
    moduleGetCapabilities "select" = some selectGetCapabilities ∧
    moduleGetCapabilities "vacuum" = none ∧
    ∀ pool, brokerProbe "vacuum" pool = none :=
  ⟨rfl, rfl, rfl, rfl, rfl, fun _ => rfl⟩

/-! ## Scene listing (`async_get_entry_scenes`) -/

/-- HTTP 403, `HTTPStatus.FORBIDDEN`. -/
def HTTP_FORBIDDEN : Nat := 403

/-- `async_get_entry_scenes`: call
`api.get_scenes(location_id=entry.data[CONF_LOCATION_ID])`; on a
`ClientResponseError` with status 403 log and fall through to `return []`;
re-raise any other status; return the fetched scenes on success.
`getScenes` is the API call as a function of the location id, returning
either the scene list or the error status. -/
def asyncGetEntryScenes (getScenes : String → Except Nat (List String))
    (locationId : String) : Except Nat (List String) :=
  match getScenes locationId with
  | Except.ok scenes => Except.ok scenes
  | Except.error status =>
    if status = HTTP_FORBIDDEN then Except.ok [] else Except.error status

/-- C8: scene listing degrades to an empty list on HTTP 403, re-raises
every other `ClientResponseError`, and returns the scenes fetched for the
entry's location id on success. -/
theorem async_get_entry_scenes_spec
    (getScenes : String → Except Nat (List String)) (locationId : String) :
    (getScenes locationId = Except.error HTTP_FORBIDDEN →
      asyncGetEntryScenes getScenes locationId = Except.ok []) ∧
    (∀ status, status ≠ HTTP_FORBIDDEN →
      getScenes locationId = Except.error status →
      asyncGetEntryScenes getScenes locationId = Except.error status) ∧
    (∀ scenes, getScenes locationId = Except.ok scenes →
      asyncGetEntryScenes getScenes locationId = Except.ok scenes) := by
  refine ⟨?_, ?_, ?_⟩
  · intro h
    simp [asyncGetEntryScenes, h]
  · intro status hs h
    simp [asyncGetEntryScenes, h, hs]
  · intro scenes h
    simp [asyncGetEntryScenes, h]

/-- Witness for C8: a 500 error propagates while a 403 yields `[]`. -/
theorem async_get_entry_scenes_spec_witness :
    asyncGetEntryScenes (fun _ => Except.error 500) "loc" =
        Except.error 500 ∧
    asyncGetEntryScenes (fun _ => Except.error 403) "loc" = Except.ok [] :=
  ⟨(async_get_entry_scenes_spec (fun _ => Except.error 500) "loc").2.1 500
      (by decide) rfl,
    (async_get_entry_scenes_spec (fun _ => Except.error 403) "loc").1 rfl⟩

/-! ## Assignment accessors (`get_assigned`, `any_assigned`) -/

/-- `DeviceBroker.get_assigned`: keys of the device's slot dict whose
value equals the platform. -/
def getAssigned (assignments : List (String × List (String × String)))
    (deviceId platform : String) : List String :=
  let slots := (alookup deviceId assignments).getD []
  (slots.filter (fun kv => decide (kv.2 = platform))).map Prod.fst

/-- `DeviceBroker.any_assigned`:
`any(value for value in slots.values() if value == platform)` — Python
`any` over the matching values tests their truthiness, i.e. that the
platform string is non-empty. -/
def anyAssigned (assignments : List (String × List (String × String)))
    (deviceId platform : String) : Bool :=
  let slots := (alookup deviceId assignments).getD []
  ((slots.map Prod.snd).filter (fun v => decide (v = platform))).any
    (fun v => decide (v ≠ ""))

theorem filter_snd_comm (p : String) :
    ∀ l : List (String × String),
      (l.map Prod.snd).filter (fun v => decide (v = p)) =
        (l.filter (fun kv => decide (kv.2 = p))).map Prod.snd := by
  intro l
  induction l with
  | nil => rfl
  | cons kv t ih =>
    by_cases h : kv.2 = p
    · simp [h, ih]
    · simp [h, ih]

/-- C9: `any_assigned` is `True` exactly when `get_assigned` is non-empty
for the same device id and platform, provided the platform name is a
non-empty string; for a device id absent from the assignment table,
`get_assigned` is empty and `any_assigned` is `False`. -/
theorem any_assigned_iff_get_assigned
    (assignments : List (String × List (String × String)))
    (deviceId platform : String) (hp : platform ≠ "") :
    (anyAssigned assignments deviceId platform = true ↔
      getAssigned assignments deviceId platform ≠ []) ∧
    (alookup deviceId assignments = none →
      getAssigned assignments deviceId platform = [] ∧
      anyAssigned assignments deviceId platform = false) := by
  constructor
  · rw [anyAssigned, getAssigned, filter_snd_comm]
    cases hfl : ((alookup deviceId assignments).getD []).filter
        (fun kv => decide (kv.2 = platform)) with
    | nil => simp [hfl]
    | cons kv rest =>
      have hkv : kv.2 = platform := by
        have hmem : kv ∈ ((alookup deviceId assignments).getD []).filter
            (fun kv => decide (kv.2 = platform)) := by
          rw [hfl]; simp
        simpa using (List.mem_filter.1 hmem).2
      simp [hfl, hkv, hp]
  · intro h
    simp [getAssigned, anyAssigned, h]

/-- Witness for C9 at a one-device assignment table. -/
theorem any_assigned_iff_get_assigned_witness :
    getAssigned [("dev", [("cap", "number")])] "dev" "number" ≠ [] :=
  (any_assigned_iff_get_assigned [("dev", [("cap", "number")])] "dev"
    "number" (by decide)).1.mp (by decide)

/-! ## Entity availability (`SmartThingsEntity.available`) -/

/-- The slice of a device's status snapshot that
`SmartThingsEntity.available` reads: `none` models a status object with
no `switch_state` attribute (`hasattr` is false). -/
structure DeviceStatus where
  switchState : Option String
deriving DecidableEq

/-- `SmartThingsEntity.available`: if the status has a `switch_state`
attribute, available iff it differs from the string `"unavailable"`;
otherwise always available. -/
def entityAvailable (status : DeviceStatus) : Bool :=
  match status.switchState with
  | some s => decide (s ≠ "unavailable")
  | none => true

/-- C10: the entity reports unavailable only when the status has a
`switch_state` attribute equal to `"unavailable"`; a status without a
`switch_state` attribute is always available. -/
theorem entity_available_switch_state (status : DeviceStatus) :
    (entityAvailable status = false ↔
      status.switchState = some "unavailable") ∧
    (status.switchState = none → entityAvailable status = true) := by
  constructor
  · cases h : status.switchState with
    | none => simp [entityAvailable, h]
    | some s =>
      by_cases hs : s = "unavailable"
      · simp [entityAvailable, h, hs]
      · simp [entityAvailable, h, hs]
  · intro h
    simp [entityAvailable, h]

/-- Witness for C10 at concrete status snapshots. -/
theorem entity_available_switch_state_witness :
    (DeviceStatus.mk (some "unavailable")).switchState =
        some "unavailable" ∧
    entityAvailable (DeviceStatus.mk none) = true :=
  ⟨(entity_available_switch_state (DeviceStatus.mk (some "unavailable"))).1.mp
      (by decide),
    (entity_available_switch_state (DeviceStatus.mk none)).2 rfl⟩
